import Mathlib

/-!
Shallow embedding of the custom memory-management subsystem of
`src/memory_management/include/CustomMemoryManagement.hpp`.

Modelling conventions:
* Addresses (`void*`, `char*`) are natural numbers; the null pointer is `0`.
  `malloc` results enter the model as explicit parameters (the environment
  chooses them); `malloc` returning a buffer is modelled by the buffer's base
  address, and a failed `malloc` by `0`.
* `size_t` values are natural numbers.  The pool's `used_` counter is kept
  modulo `W = 2 ^ 64` because `used_ -= blockSize_` in
  `MemoryPool::deallocate` can genuinely wrap around zero; the tracker's
  `totalAllocated_` counter uses plain `Nat` arithmetic with truncated
  subtraction, which coincides with `size_t` arithmetic on every run in which
  the counter never exceeds `2 ^ 64` (its additions are bounded by memory
  actually handed out) and never underflows (it only ever subtracts the
  recorded size of an entry it simultaneously removes).
* `std::unordered_map<void*, AllocationInfo>` is an association list with
  unique keys; `operator[]` assignment replaces any existing binding.
* `std::vector<void*> freeList_` is a `List Nat` in the same order as the
  vector: `push_back` appends at the end, `back`/`pop_back` act on the last
  element.
* Console output (`std::cout` / `std::cerr` diagnostics) is modelled by
  result values naming which message was emitted; the spec's error taxonomy
  (`Exhausted`, `InvalidRelease`, `DoubleRelease`, `UntrackedRelease`,
  `OutOfMemory`) is mapped onto those results.
-/

namespace MemoryManagement

/-- `2 ^ 64`, the modulus of `size_t` arithmetic on the 64-bit targets the
code is written for. -/
def W : Nat := 2 ^ 64

/-- Mirrors `MemoryTracker::AllocationInfo` (size, file, line). -/
structure AllocationInfo where
  size : Nat
  file : String
  line : Int
deriving Repr, DecidableEq

/-- State of the `MemoryTracker` singleton: the `allocations_` map (an
association list with unique keys, keyed by address) and the
`totalAllocated_` running total. -/
structure MemoryTracker where
  allocations : List (Nat × AllocationInfo)
  totalAllocated : Nat
deriving Repr, DecidableEq

/-- The tracker state right after construction: empty map, zero total. -/
def MemoryTracker.init : MemoryTracker := ⟨[], 0⟩

/-- `allocations_.find(ptr)` as a lookup of the stored info. -/
def MemoryTracker.lookup (t : MemoryTracker) (ptr : Nat) : Option AllocationInfo :=
  (t.allocations.find? (fun e => e.1 == ptr)).map (fun e => e.2)

/-- `MemoryTracker::isTracked` (lines 75-78). -/
def MemoryTracker.isTracked (t : MemoryTracker) (ptr : Nat) : Bool :=
  (t.allocations.find? (fun e => e.1 == ptr)).isSome

/-- `MemoryTracker::recordAllocation` (lines 47-56): null pointers are
ignored; otherwise `allocations_[ptr] = info` (replacing any existing binding
for `ptr`) and `totalAllocated_ += size`. -/
def MemoryTracker.recordAllocation (t : MemoryTracker) (ptr size : Nat)
    (file : String) (line : Int) : MemoryTracker :=
  if ptr = 0 then t
  else
    { allocations := (ptr, ⟨size, file, line⟩) :: t.allocations.filter (fun e => e.1 != ptr)
      totalAllocated := t.totalAllocated + size }

/-- Observable outcome of `MemoryTracker::recordDeallocation`. -/
inductive DeallocOutcome where
  /-- `ptr == nullptr`: silent early return. -/
  | nullNoOp
  /-- the address was tracked; its record (of the given size) was removed. -/
  | removed (size : Nat)
  /-- the address was not tracked: warning `尝试释放未跟踪的内存`,
  the spec's `UntrackedRelease`. -/
  | untrackedRelease
deriving Repr, DecidableEq

/-- `MemoryTracker::recordDeallocation` (lines 59-72): null is a silent
no-op; a tracked address has its record erased and its size subtracted from
the running total; an untracked address only produces a warning. -/
def MemoryTracker.recordDeallocation (t : MemoryTracker) (ptr : Nat) :
    MemoryTracker × DeallocOutcome :=
  if ptr = 0 then (t, .nullNoOp)
  else
    match t.allocations.find? (fun e => e.1 == ptr) with
    | some e =>
        ({ allocations := t.allocations.eraseP (fun e => e.1 == ptr)
           totalAllocated := t.totalAllocated - e.2.size }, .removed e.2.size)
    | none => (t, .untrackedRelease)

/-- `MemoryTracker::getTotalAllocated` (lines 101-104), the spec's
`totalLiveBytes()`. -/
def MemoryTracker.getTotalAllocated (t : MemoryTracker) : Nat :=
  t.totalAllocated

/-- `MemoryTracker::printLeakReport` (lines 81-98) reports exactly the
entries still present in `allocations_`; the report is modelled as that list
of entries. -/
def MemoryTracker.leakReport (t : MemoryTracker) : List (Nat × AllocationInfo) :=
  t.allocations

/-- Sum of the sizes of the records of an allocation map. -/
def sumSizes (l : List (Nat × AllocationInfo)) : Nat :=
  (l.map (fun e => e.2.size)).sum

/-- State of a `MemoryPool`: `memory_` (the buffer's base address, as handed
out by `malloc`), `blockSize_`, `poolSize_`, `used_` and `freeList_`. -/
structure MemoryPool where
  base : Nat
  blockSize : Nat
  poolSize : Nat
  used : Nat
  freeList : List Nat
deriving Repr, DecidableEq

/-- The `MemoryPool` constructor (lines 183-205) with a successful
`malloc(poolSize)` returning `base`: `numBlocks = poolSize / blockSize`
blocks, the free list holding the block start addresses in push order
`base + i * blockSize`, `i = 0, …, numBlocks - 1`, and `used_ = 0`. -/
def MemoryPool.create (blockSize poolSize base : Nat) : MemoryPool :=
  { base := base
    blockSize := blockSize
    poolSize := poolSize
    used := 0
    freeList := (List.range (poolSize / blockSize)).map (fun i => base + i * blockSize) }

/-- `MemoryPool::allocate` (lines 219-236): empty free list means `nullptr`
(the spec's `Exhausted`) with no state change; otherwise the *last* element
of `freeList_` is popped (`back()` / `pop_back()`) and `used_ += blockSize_`
(in `size_t` arithmetic). -/
def MemoryPool.allocate (p : MemoryPool) : Option Nat × MemoryPool :=
  match p.freeList.getLast? with
  | none => (none, p)
  | some block =>
      (some block,
       { p with freeList := p.freeList.dropLast, used := (p.used + p.blockSize) % W })

/-- Observable outcome of `MemoryPool::deallocate`. -/
inductive PoolDeallocOutcome where
  /-- the block was appended to the free list. -/
  | ok
  /-- warning `尝试释放不属于此内存池的内存` (out of `[base, base+poolSize)`),
  one face of the spec's `InvalidRelease`. -/
  | notInPool
  /-- warning `尝试释放非内存块起始位置` (offset not a multiple of the block
  size), the other face of the spec's `InvalidRelease`. -/
  | misaligned
  /-- warning `尝试多次释放同一块内存`, the spec's `DoubleRelease`. -/
  | doubleRelease
deriving Repr, DecidableEq

/-- Whether an outcome is one of the two faces of the spec's
`InvalidRelease`. -/
def PoolDeallocOutcome.isInvalidRelease : PoolDeallocOutcome → Bool
  | .notInPool => true
  | .misaligned => true
  | _ => false

/-- `MemoryPool::deallocate` (lines 239-269): range check
`memory_ <= ptr < memory_ + poolSize_`, then alignment of
`offset = ptr - memory_`, then a linear scan of `freeList_` for a double
free; only then `push_back(ptr)` and `used_ -= blockSize_` (in `size_t`
arithmetic, which can wrap below zero). -/
def MemoryPool.deallocate (p : MemoryPool) (ptr : Nat) :
    MemoryPool × PoolDeallocOutcome :=
  if p.base ≤ ptr ∧ ptr < p.base + p.poolSize then
    if (ptr - p.base) % p.blockSize ≠ 0 then (p, .misaligned)
    else if ptr ∈ p.freeList then (p, .doubleRelease)
    else
      ({ p with freeList := p.freeList ++ [ptr]
                used := (p.used + (W - p.blockSize % W)) % W }, .ok)
  else (p, .notInPool)

/-- `MemoryPool::getUsed` (lines 277-281), the spec's `usedBytes()`. -/
def MemoryPool.getUsed (p : MemoryPool) : Nat := p.used

/-- `MemoryPool::getFreeCount` (lines 284-288), the spec's
`freeBlockCount()`. -/
def MemoryPool.getFreeCount (p : MemoryPool) : Nat := p.freeList.length

namespace Trackable

/-- `Trackable::operator new(size_t)` (lines 313-327), the plain-heap
acquisition path.  `mallocResult` is the address `malloc` returned (`0` for
failure, in which case `std::bad_alloc` is thrown and nothing is recorded).
A zero-byte request is bumped to one byte before `malloc` is called. -/
def opNew (t : MemoryTracker) (mallocResult size : Nat) :
    Option Nat × MemoryTracker :=
  let sz := if size = 0 then 1 else size
  if mallocResult = 0 then (none, t)
  else (some mallocResult, t.recordAllocation mallocResult sz "Unknown" 0)

/-- `Trackable::operator new(size_t, const char*, int)` (lines 348-359), the
tagged-heap acquisition path (used through `TRACKED_NEW`). -/
def opNewTagged (t : MemoryTracker) (mallocResult size : Nat)
    (file : String) (line : Int) : Option Nat × MemoryTracker :=
  let sz := if size = 0 then 1 else size
  if mallocResult = 0 then (none, t)
  else (some mallocResult, t.recordAllocation mallocResult sz file line)

/-- Observable outcome of `Trackable::operator delete(void*)`. -/
inductive HeapReleaseOutcome where
  /-- `ptr == nullptr`: silent early return. -/
  | nullNoOp
  /-- tracked: record removed and `free(ptr)` called. -/
  | released
  /-- untracked: warning `尝试释放未跟踪的内存` and—crucially—no `free`
  call; the spec's `UntrackedRelease`. -/
  | untrackedRelease
deriving Repr, DecidableEq

/-- Whether the heap release path calls `free` on the address. -/
def HeapReleaseOutcome.callsFree : HeapReleaseOutcome → Bool
  | .released => true
  | _ => false

/-- `Trackable::operator delete(void*)` (lines 330-344), the heap release
path: null is a silent no-op; a tracked address is removed from the tracker
and `free`d; an untracked address produces only a warning and is *not*
freed. -/
def opDelete (t : MemoryTracker) (ptr : Nat) :
    MemoryTracker × HeapReleaseOutcome :=
  if ptr = 0 then (t, .nullNoOp)
  else if t.isTracked ptr then ((t.recordDeallocation ptr).1, .released)
  else (t, .untrackedRelease)

/-- `Trackable::operator delete(void*, const char*, int)` (lines 362-368),
the placement delete the runtime invokes when a constructor fails after a
`TRACKED_NEW` acquisition: unconditionally `recordDeallocation(ptr)` then
`free(ptr)` (null is a silent no-op). -/
def opDeleteTagged (t : MemoryTracker) (ptr : Nat) : MemoryTracker :=
  if ptr = 0 then t
  else (t.recordDeallocation ptr).1

/-- `Trackable::operator new(size_t, MemoryPool&)` (lines 371-384), the
pooled acquisition path (used through `POOL_NEW`): a request larger than the
block size throws before touching the pool; an exhausted pool (or a block at
address `0`, which the null check cannot tell apart from exhaustion) throws
`std::bad_alloc`; otherwise the drawn block is recorded with origin
`"MemoryPool"`. -/
def opNewPool (t : MemoryTracker) (pool : MemoryPool) (size : Nat) :
    Option Nat × MemoryTracker × MemoryPool :=
  if size > pool.blockSize then (none, t, pool)
  else
    match pool.allocate with
    | (none, pool') => (none, t, pool')
    | (some addr, pool') =>
        if addr = 0 then (none, t, pool')
        else (some addr, t.recordAllocation addr size "MemoryPool" 0, pool')

/-- `Trackable::operator delete(void*, MemoryPool&)` (lines 387-400), the
pool release path (also the placement delete invoked when a constructor
fails after a `POOL_NEW` acquisition): if the address is tracked it is
removed from the tracker, and in every non-null case the address is handed
to `MemoryPool::deallocate`. -/
def opDeletePool (t : MemoryTracker) (pool : MemoryPool) (ptr : Nat) :
    MemoryTracker × MemoryPool :=
  if ptr = 0 then (t, pool)
  else
    let t' := if t.isTracked ptr then (t.recordDeallocation ptr).1 else t
    (t', (pool.deallocate ptr).1)

end Trackable

/-- State of the emergency-reserve machinery of `MemoryTracker`:
whether `emergencyReserve_` is still held, and whether the new-handler is
still `MemoryTracker::memoryExhausted` (the `MemoryTracker` constructor
installs it; `memoryExhausted` resets it to `nullptr` when no recovery is
possible). -/
structure ReserveState where
  emergencyReserve : Bool
  newHandlerInstalled : Bool
deriving Repr, DecidableEq

/-- The state after the `MemoryTracker` constructor (lines 146-151) ran with
a successful `malloc` for the 1 MiB reserve: reserve held, handler
installed. -/
def ReserveState.init : ReserveState := ⟨true, true⟩

/-- `MemoryTracker::releaseEmergencyReserve` (lines 126-133): frees the
reserve and reports `true` if it was still held, otherwise reports
`false`. -/
def ReserveState.releaseEmergencyReserve (s : ReserveState) : ReserveState × Bool :=
  if s.emergencyReserve then ({ s with emergencyReserve := false }, true)
  else (s, false)

/-- What one heap-exhaustion event looks like to the caller. -/
inductive ExhaustOutcome where
  /-- the reserve was released and the handler kept installed, so
  `operator new` loops and retries the allocation. -/
  | retryPossible
  /-- no recovery: `std::bad_alloc` propagates, the spec's `OutOfMemory`. -/
  | outOfMemory
deriving Repr, DecidableEq

/-- `MemoryTracker::memoryExhausted` (lines 27-38), the new-handler: release
the reserve and let `operator new` retry if it was still held; otherwise
reset the new-handler to `nullptr` so the pending and all later allocations
fail with `std::bad_alloc`. -/
def ReserveState.memoryExhausted (s : ReserveState) : ReserveState × ExhaustOutcome :=
  match s.releaseEmergencyReserve with
  | (s', true) => (s', .retryPossible)
  | (s', false) => ({ s' with newHandlerInstalled := false }, .outOfMemory)

/-- One heap-exhaustion event as `operator new` processes it: if a
new-handler is installed it is invoked (and a retry happens exactly when it
reports recovery), otherwise `std::bad_alloc` is thrown immediately. -/
def ReserveState.onExhaustion (s : ReserveState) : ReserveState × ExhaustOutcome :=
  if s.newHandlerInstalled then s.memoryExhausted
  else (s, .outOfMemory)

/-- The outcomes of `n` successive heap-exhaustion events. -/
def ReserveState.exhaustionOutcomes (s : ReserveState) : Nat → List ExhaustOutcome
  | 0 => []
  | n + 1 =>
      let (s', r) := s.onExhaustion
      r :: s'.exhaustionOutcomes n

/-- How many of a list of exhaustion outcomes performed a recovery. -/
def countRetries (l : List ExhaustOutcome) : Nat :=
  (l.filter (fun r => r == ExhaustOutcome.retryPossible)).length

/-- Combined state of the tracker singleton and one memory pool, for
reasoning about interleavings of the three acquisition/release paths. -/
structure SysState where
  tracker : MemoryTracker
  pool : MemoryPool
deriving Repr, DecidableEq

/-- Fresh process state: empty tracker, freshly constructed pool. -/
def SysState.init (blockSize poolSize base : Nat) : SysState :=
  ⟨MemoryTracker.init, MemoryPool.create blockSize poolSize base⟩

/-- One operation of the allocation-routing layer.  The heap-acquisition
constructors carry the guarantees `malloc` gives about a successful result:
the address is non-null and distinct from every live allocation — in
particular from every tracked address (each is either a live heap block or a
block inside the pool's live buffer) and from every pool free-list entry
(those also lie inside the pool's live buffer). -/
inductive SysStep : SysState → SysState → Prop where
  /-- plain-heap acquisition `new Obj` via
  `Trackable::operator new(size_t)` with a successful `malloc`. -/
  | heapNew (s : SysState) (addr size : Nat) (h0 : addr ≠ 0)
      (hfresh : s.tracker.lookup addr = none) (hpool : addr ∉ s.pool.freeList) :
      SysStep s ⟨(Trackable.opNew s.tracker addr size).2, s.pool⟩
  /-- tagged-heap acquisition `TRACKED_NEW Obj` via
  `Trackable::operator new(size_t, const char*, int)` with a successful
  `malloc`. -/
  | taggedNew (s : SysState) (addr size : Nat) (file : String) (line : Int)
      (h0 : addr ≠ 0) (hfresh : s.tracker.lookup addr = none)
      (hpool : addr ∉ s.pool.freeList) :
      SysStep s ⟨(Trackable.opNewTagged s.tracker addr size file line).2, s.pool⟩
  /-- pooled acquisition `POOL_NEW(pool) Obj` via
  `Trackable::operator new(size_t, MemoryPool&)` (all of its branches,
  including rejection and exhaustion). -/
  | poolNew (s : SysState) (size : Nat) :
      SysStep s ⟨(Trackable.opNewPool s.tracker s.pool size).2.1,
                 (Trackable.opNewPool s.tracker s.pool size).2.2⟩
  /-- heap release `delete obj` via `Trackable::operator delete(void*)`, at
  an arbitrary address. -/
  | heapDelete (s : SysState) (ptr : Nat) :
      SysStep s ⟨(Trackable.opDelete s.tracker ptr).1, s.pool⟩
  /-- tagged-path placement delete via
  `Trackable::operator delete(void*, const char*, int)`, at an arbitrary
  address. -/
  | taggedDelete (s : SysState) (ptr : Nat) :
      SysStep s ⟨Trackable.opDeleteTagged s.tracker ptr, s.pool⟩
  /-- pool release via `Trackable::operator delete(void*, MemoryPool&)`, at
  an arbitrary address. -/
  | poolDelete (s : SysState) (ptr : Nat) :
      SysStep s ⟨(Trackable.opDeletePool s.tracker s.pool ptr).1,
                 (Trackable.opDeletePool s.tracker s.pool ptr).2⟩

/-- The states a run of the program can reach by interleaving the three
acquisition/release paths, starting from a fresh tracker and a freshly
constructed pool. -/
def SysReachable (blockSize poolSize base : Nat) (s : SysState) : Prop :=
  Relation.ReflTransGen SysStep (SysState.init blockSize poolSize base) s

/-- One `MemoryPool` operation: `allocate`, or `deallocate` at an arbitrary
address. -/
inductive PoolStep : MemoryPool → MemoryPool → Prop where
  | alloc (p : MemoryPool) : PoolStep p p.allocate.2
  | dealloc (p : MemoryPool) (ptr : Nat) : PoolStep p (p.deallocate ptr).1

/-- The pool states reachable from a freshly constructed pool by any
sequence of `allocate` and `deallocate` calls. -/
def PoolReachable (blockSize poolSize base : Nat) (p : MemoryPool) : Prop :=
  Relation.ReflTransGen PoolStep (MemoryPool.create blockSize poolSize base) p

/-- Invariant of the combined tracker-and-pool state: the running total
matches the recorded sizes, the record map has unique keys, the free list
has no duplicates, and no free-list entry is tracked. -/
def SysInv (s : SysState) : Prop :=
  s.tracker.totalAllocated = sumSizes s.tracker.allocations ∧
  (s.tracker.allocations.map Prod.fst).Nodup ∧
  s.pool.freeList.Nodup ∧
  ∀ a ∈ s.pool.freeList, s.tracker.lookup a = none

/-- Inductive invariant of a pool created as
`MemoryPool.create blockSize poolSize base`: fields are fixed, the free
list holds pairwise distinct block start addresses (block index below
`poolSize / blockSize`), it never holds more than `poolSize / blockSize`
entries, and `used_` accounts exactly for the missing entries. -/
def MemoryPool.goodPool (blockSize poolSize base : Nat) (p : MemoryPool) : Prop :=
  p.base = base ∧ p.blockSize = blockSize ∧ p.poolSize = poolSize ∧
  p.freeList.Nodup ∧
  (∀ a ∈ p.freeList, ∃ i, i < poolSize / blockSize ∧ a = base + i * blockSize) ∧
  p.freeList.length ≤ poolSize / blockSize ∧
  p.used = (poolSize / blockSize - p.freeList.length) * blockSize

/-- `n` successive `MemoryPool::allocate` calls, collecting the returned
addresses in call order. -/
def allocMany (p : MemoryPool) : Nat → List (Option Nat) × MemoryPool
  | 0 => ([], p)
  | n + 1 =>
      match p.allocate with
      | (a, p') =>
          match allocMany p' n with
          | (rest, p'') => (a :: rest, p'')

/-! ### Bookkeeping lemmas about the tracker's association list -/

theorem MemoryTracker.lookup_eq_none_iff (t : MemoryTracker) (a : Nat) :
    t.lookup a = none ↔ ∀ e ∈ t.allocations, e.1 ≠ a := by
  simp only [MemoryTracker.lookup, Option.map_eq_none', List.find?_eq_none,
    beq_iff_eq]

theorem sumSizes_cons (e : Nat × AllocationInfo) (l : List (Nat × AllocationInfo)) :
    sumSizes (e :: l) = e.2.size + sumSizes l := by
  simp [sumSizes]

theorem filter_eq_self_of_lookup_none (t : MemoryTracker) (a : Nat)
    (h : t.lookup a = none) :
    t.allocations.filter (fun e => e.1 != a) = t.allocations := by
  rw [List.filter_eq_self]
  intro e he
  simpa using (t.lookup_eq_none_iff a).mp h e he

theorem find?_filter_key_ne (l : List (Nat × AllocationInfo)) (a p : Nat)
    (h : a ≠ p) :
    (l.filter (fun e => e.1 != p)).find? (fun e => e.1 == a) =
      l.find? (fun e => e.1 == a) := by
  induction l with
  | nil => rfl
  | cons e l ih =>
    by_cases hp : e.1 = p
    · have hkeep : (fun e => e.1 != p) e = false := by simp [hp]
      have hhead : (e.1 == a) = false := by simp [hp, Ne.symm h]
      simp [List.filter_cons, hkeep, List.find?_cons, hhead, ih]
    · have hkeep : (fun e => e.1 != p) e = true := by simp [hp]
      by_cases ha : e.1 = a
      · simp [List.filter_cons, hkeep, List.find?_cons, ha, h]
      · simp [List.filter_cons, hkeep, List.find?_cons, ha, ih]

theorem lookup_recordAllocation_ne (t : MemoryTracker) (p sz : Nat)
    (f : String) (li : Int) (a : Nat) (h : a ≠ p) :
    (t.recordAllocation p sz f li).lookup a = t.lookup a := by
  unfold MemoryTracker.recordAllocation
  by_cases hp : p = 0
  · simp [hp]
  · simp only [hp, if_false, MemoryTracker.lookup, List.find?_cons]
    have hhead : ((p, (⟨sz, f, li⟩ : AllocationInfo)).1 == a) = false := by
      simp [Ne.symm h]
    simp [hhead, find?_filter_key_ne _ _ _ h]

theorem sumSizes_eraseP (l : List (Nat × AllocationInfo))
    (q : Nat × AllocationInfo → Bool) (e : Nat × AllocationInfo)
    (h : l.find? q = some e) :
    sumSizes (l.eraseP q) + e.2.size = sumSizes l := by
  induction l with
  | nil => simp at h
  | cons x l ih =>
    by_cases hx : q x
    · rw [List.find?_cons_of_pos _ hx] at h
      cases h
      rw [List.eraseP_cons_of_pos hx, sumSizes_cons]
      omega
    · rw [List.find?_cons_of_neg _ (by simp [hx])] at h
      rw [List.eraseP_cons_of_neg (by simp [hx]), sumSizes_cons, sumSizes_cons]
      have := ih h
      omega

theorem keys_sublist_eraseP (l : List (Nat × AllocationInfo))
    (q : Nat × AllocationInfo → Bool) :
    List.Sublist ((l.eraseP q).map Prod.fst) (l.map Prod.fst) :=
  (List.eraseP_sublist l).map Prod.fst

theorem lookup_none_of_sublist (t t' : MemoryTracker) (a : Nat)
    (hsub : List.Sublist t'.allocations t.allocations)
    (h : t.lookup a = none) : t'.lookup a = none := by
  rw [MemoryTracker.lookup_eq_none_iff] at h ⊢
  exact fun e he => h e (hsub.subset he)

theorem lookup_eraseP_self (l : List (Nat × AllocationInfo)) (p : Nat)
    (hnd : (l.map Prod.fst).Nodup) :
    (l.eraseP (fun e => e.1 == p)).find? (fun e => e.1 == p) = none := by
  induction l with
  | nil => rfl
  | cons x l ih =>
    simp only [List.map_cons, List.nodup_cons] at hnd
    by_cases hx : x.1 = p
    · rw [List.eraseP_cons_of_pos (by simp [hx])]
      rw [List.find?_eq_none]
      intro e he
      have : e.1 ≠ p := by
        intro hep
        exact hnd.1 (hx ▸ hep ▸ List.mem_map_of_mem Prod.fst he)
      simp [this]
    · rw [List.eraseP_cons_of_neg (by simp [hx]),
        List.find?_cons_of_neg _ (by simp [hx])]
      exact ih hnd.2

/-! ### Case analysis of `MemoryPool::deallocate` -/

theorem MemoryPool.deallocate_not_in_pool (p : MemoryPool) (ptr : Nat)
    (h : ¬(p.base ≤ ptr ∧ ptr < p.base + p.poolSize)) :
    p.deallocate ptr = (p, .notInPool) := by
  unfold MemoryPool.deallocate
  simp [h]

theorem MemoryPool.deallocate_misaligned (p : MemoryPool) (ptr : Nat)
    (h : p.base ≤ ptr ∧ ptr < p.base + p.poolSize)
    (ha : (ptr - p.base) % p.blockSize ≠ 0) :
    p.deallocate ptr = (p, .misaligned) := by
  unfold MemoryPool.deallocate
  simp [h, ha]

theorem MemoryPool.deallocate_double (p : MemoryPool) (ptr : Nat)
    (h : p.base ≤ ptr ∧ ptr < p.base + p.poolSize)
    (ha : (ptr - p.base) % p.blockSize = 0) (hm : ptr ∈ p.freeList) :
    p.deallocate ptr = (p, .doubleRelease) := by
  unfold MemoryPool.deallocate
  simp [h, ha, hm]

theorem MemoryPool.deallocate_ok (p : MemoryPool) (ptr : Nat)
    (h : p.base ≤ ptr ∧ ptr < p.base + p.poolSize)
    (ha : (ptr - p.base) % p.blockSize = 0) (hm : ptr ∉ p.freeList) :
    p.deallocate ptr =
      ({ p with freeList := p.freeList ++ [ptr]
                used := (p.used + (W - p.blockSize % W)) % W }, .ok) := by
  unfold MemoryPool.deallocate
  simp [h, ha, hm]

/-- The free list after `deallocate` is the old one, possibly with `ptr`
appended. -/
theorem MemoryPool.deallocate_freeList_cases (p : MemoryPool) (ptr : Nat) :
    (p.deallocate ptr).1.freeList = p.freeList ∨
      ((p.deallocate ptr).1.freeList = p.freeList ++ [ptr] ∧ ptr ∉ p.freeList) := by
  by_cases h : p.base ≤ ptr ∧ ptr < p.base + p.poolSize
  · by_cases ha : (ptr - p.base) % p.blockSize = 0
    · by_cases hm : ptr ∈ p.freeList
      · rw [p.deallocate_double ptr h ha hm]; exact Or.inl rfl
      · rw [p.deallocate_ok ptr h ha hm]; exact Or.inr ⟨rfl, hm⟩
    · rw [p.deallocate_misaligned ptr h ha]; exact Or.inl rfl
  · rw [p.deallocate_not_in_pool ptr h]; exact Or.inl rfl

/-! ### The system invariant behind claim C1 -/

theorem getLast_not_mem_dropLast (l : List Nat) (hl : l.Nodup) (x : Nat)
    (hx : l.getLast? = some x) : x ∉ l.dropLast := by
  have hne : l ≠ [] := by rintro rfl; simp at hx
  have hsplit := List.dropLast_append_getLast hne
  rw [List.getLast?_eq_getLast_of_ne_nil hne] at hx
  have hxl : l.getLast hne = x := by injection hx
  rw [← hsplit, hxl] at hl
  have := List.disjoint_of_nodup_append hl
  intro hmem
  exact this hmem (by simp)

theorem recordAllocation_fresh (t : MemoryTracker) (p sz : Nat) (f : String)
    (li : Int) (hp : p ≠ 0) (hfresh : t.lookup p = none) :
    t.recordAllocation p sz f li =
      ⟨(p, ⟨sz, f, li⟩) :: t.allocations, t.totalAllocated + sz⟩ := by
  unfold MemoryTracker.recordAllocation
  simp [hp, filter_eq_self_of_lookup_none t p hfresh]

theorem trackerInsert_inv (t : MemoryTracker) (p sz : Nat) (f : String)
    (li : Int) (hp : p ≠ 0) (hfresh : t.lookup p = none)
    (h1 : t.totalAllocated = sumSizes t.allocations)
    (h2 : (t.allocations.map Prod.fst).Nodup) :
    (t.recordAllocation p sz f li).totalAllocated =
        sumSizes (t.recordAllocation p sz f li).allocations ∧
    ((t.recordAllocation p sz f li).allocations.map Prod.fst).Nodup := by
  rw [recordAllocation_fresh t p sz f li hp hfresh]
  constructor
  · simp [sumSizes_cons, h1]; omega
  · simp only [List.map_cons, List.nodup_cons]
    refine ⟨?_, h2⟩
    intro hmem
    obtain ⟨e, he, hep⟩ := List.mem_map.mp hmem
    exact ((t.lookup_eq_none_iff p).mp hfresh e he) hep

theorem trackerErase_inv (t : MemoryTracker) (p : Nat)
    (h1 : t.totalAllocated = sumSizes t.allocations)
    (h2 : (t.allocations.map Prod.fst).Nodup) :
    ((t.recordDeallocation p).1.totalAllocated =
        sumSizes (t.recordDeallocation p).1.allocations ∧
      ((t.recordDeallocation p).1.allocations.map Prod.fst).Nodup) ∧
    List.Sublist (t.recordDeallocation p).1.allocations t.allocations := by
  unfold MemoryTracker.recordDeallocation
  by_cases hp : p = 0
  · simp [hp, h1, h2]
  · simp only [hp, if_false]
    cases hfind : t.allocations.find? (fun e => e.1 == p) with
    | none => simp [h1, h2]
    | some e =>
      simp only
      refine ⟨⟨?_, ?_⟩, List.eraseP_sublist t.allocations⟩
      · have := sumSizes_eraseP t.allocations _ e hfind
        omega
      · exact h2.sublist (keys_sublist_eraseP t.allocations _)

theorem sysStep_inv {s s' : SysState} (h : SysStep s s') (hs : SysInv s) :
    SysInv s' := by
  obtain ⟨h1, h2, h3, h4⟩ := hs
  cases h with
  | heapNew addr size h0 hfresh hpool =>
    have hins := trackerInsert_inv s.tracker addr
      (if size = 0 then 1 else size) "Unknown" 0 h0 hfresh h1 h2
    refine ⟨?_, ?_, h3, ?_⟩
    · simpa [Trackable.opNew, h0] using hins.1
    · simpa [Trackable.opNew, h0] using hins.2
    · intro a ha
      have hna : a ≠ addr := fun hh => hpool (hh ▸ ha)
      simpa [Trackable.opNew, h0,
        lookup_recordAllocation_ne s.tracker addr _ _ _ a hna] using h4 a ha
  | taggedNew addr size file line h0 hfresh hpool =>
    have hins := trackerInsert_inv s.tracker addr
      (if size = 0 then 1 else size) file line h0 hfresh h1 h2
    refine ⟨?_, ?_, h3, ?_⟩
    · simpa [Trackable.opNewTagged, h0] using hins.1
    · simpa [Trackable.opNewTagged, h0] using hins.2
    · intro a ha
      have hna : a ≠ addr := fun hh => hpool (hh ▸ ha)
      simpa [Trackable.opNewTagged, h0,
        lookup_recordAllocation_ne s.tracker addr _ _ _ a hna] using h4 a ha
  | poolNew size =>
    by_cases hsz : size > s.pool.blockSize
    · have heq : Trackable.opNewPool s.tracker s.pool size =
          (none, s.tracker, s.pool) := by
        unfold Trackable.opNewPool; simp [hsz]
      rw [heq]
      exact ⟨h1, h2, h3, h4⟩
    · cases hlast : s.pool.freeList.getLast? with
      | none =>
        have heq : Trackable.opNewPool s.tracker s.pool size =
            (none, s.tracker, s.pool) := by
          unfold Trackable.opNewPool MemoryPool.allocate
          simp [hsz, hlast]
        rw [heq]
        exact ⟨h1, h2, h3, h4⟩
      | some b =>
        have hmem : b ∈ s.pool.freeList := by
          obtain ⟨hne, rfl⟩ := List.mem_getLast?_eq_getLast hlast
          exact List.getLast_mem hne
        have hfresh : s.tracker.lookup b = none := h4 b hmem
        have hdropnd : s.pool.freeList.dropLast.Nodup :=
          h3.sublist (List.dropLast_sublist s.pool.freeList)
        have hdropmem : ∀ a ∈ s.pool.freeList.dropLast,
            a ≠ b ∧ a ∈ s.pool.freeList := by
          intro a ha
          refine ⟨?_, (List.dropLast_sublist s.pool.freeList).subset ha⟩
          intro hab
          exact getLast_not_mem_dropLast s.pool.freeList h3 b hlast (hab ▸ ha)
        by_cases h0 : b = 0
        · have heq : Trackable.opNewPool s.tracker s.pool size =
              (none, s.tracker,
               { s.pool with freeList := s.pool.freeList.dropLast
                             used := (s.pool.used + s.pool.blockSize) % W }) := by
            unfold Trackable.opNewPool MemoryPool.allocate
            simp [hsz, hlast, h0]
          rw [heq]
          exact ⟨h1, h2, hdropnd, fun a ha => h4 a (hdropmem a ha).2⟩
        · have hins := trackerInsert_inv s.tracker b size "MemoryPool" 0
            h0 hfresh h1 h2
          have heq : Trackable.opNewPool s.tracker s.pool size =
              (some b, s.tracker.recordAllocation b size "MemoryPool" 0,
               { s.pool with freeList := s.pool.freeList.dropLast
                             used := (s.pool.used + s.pool.blockSize) % W }) := by
            unfold Trackable.opNewPool MemoryPool.allocate
            simp [hsz, hlast, h0]
          rw [heq]
          refine ⟨hins.1, hins.2, hdropnd, ?_⟩
          intro a ha
          rw [lookup_recordAllocation_ne s.tracker b _ _ _ a (hdropmem a ha).1]
          exact h4 a (hdropmem a ha).2
  | heapDelete ptr =>
    unfold Trackable.opDelete
    by_cases hp : ptr = 0
    · simpa [hp] using ⟨h1, h2, h3, h4⟩
    · by_cases htr : s.tracker.isTracked ptr
      · have herase := trackerErase_inv s.tracker ptr h1 h2
        refine ⟨?_, ?_, ?_, ?_⟩
        · simpa [hp, htr] using herase.1.1
        · simpa [hp, htr] using herase.1.2
        · simpa [hp, htr] using h3
        · simp only [hp, htr, if_false, if_true]
          intro a ha
          exact lookup_none_of_sublist s.tracker _ a herase.2 (h4 a ha)
      · simpa [hp, htr] using ⟨h1, h2, h3, h4⟩
  | taggedDelete ptr =>
    unfold Trackable.opDeleteTagged
    by_cases hp : ptr = 0
    · simpa [hp] using ⟨h1, h2, h3, h4⟩
    · have herase := trackerErase_inv s.tracker ptr h1 h2
      refine ⟨?_, ?_, ?_, ?_⟩
      · simpa [hp] using herase.1.1
      · simpa [hp] using herase.1.2
      · simpa [hp] using h3
      · simp only [hp, if_false]
        intro a ha
        exact lookup_none_of_sublist s.tracker _ a herase.2 (h4 a ha)
  | poolDelete ptr =>
    unfold Trackable.opDeletePool
    by_cases hp : ptr = 0
    · simpa [hp] using ⟨h1, h2, h3, h4⟩
    · -- the tracker after the conditional deallocation
      have htr' :
          (if s.tracker.isTracked ptr then (s.tracker.recordDeallocation ptr).1
            else s.tracker).totalAllocated =
            sumSizes (if s.tracker.isTracked ptr
              then (s.tracker.recordDeallocation ptr).1
              else s.tracker).allocations ∧
          ((if s.tracker.isTracked ptr then (s.tracker.recordDeallocation ptr).1
            else s.tracker).allocations.map Prod.fst).Nodup ∧
          List.Sublist (if s.tracker.isTracked ptr
              then (s.tracker.recordDeallocation ptr).1
              else s.tracker).allocations s.tracker.allocations ∧
          (if s.tracker.isTracked ptr then (s.tracker.recordDeallocation ptr).1
            else s.tracker).lookup ptr = none := by
        by_cases htr : s.tracker.isTracked ptr
        · have herase := trackerErase_inv s.tracker ptr h1 h2
          refine ⟨by simpa [htr] using herase.1.1,
            by simpa [htr] using herase.1.2,
            by simpa [htr] using herase.2, ?_⟩
          simp only [htr, if_true]
          unfold MemoryTracker.recordDeallocation
          simp only [hp, if_false]
          obtain ⟨e, hfind⟩ : ∃ e, s.tracker.allocations.find?
              (fun e => e.1 == ptr) = some e := by
            unfold MemoryTracker.isTracked at htr
            exact Option.isSome_iff_exists.mp htr
          simp only [hfind, MemoryTracker.lookup, Option.map_eq_none']
          exact lookup_eraseP_self s.tracker.allocations ptr h2
        · have hnone : s.tracker.lookup ptr = none := by
            unfold MemoryTracker.isTracked at htr
            unfold MemoryTracker.lookup
            simp only [Option.map_eq_none']
            exact Option.not_isSome_iff_eq_none.mp htr
          simp [htr, h1, h2, hnone]
      refine ⟨by simpa [hp] using htr'.1, by simpa [hp] using htr'.2.1, ?_, ?_⟩
      · -- free list stays duplicate-free
        simp only [hp, if_false]
        cases s.pool.deallocate_freeList_cases ptr with
        | inl hcase => rw [hcase]; exact h3
        | inr hcase =>
          rw [hcase.1]
          have hiff : (s.pool.freeList ++ [ptr]).Nodup ↔
              s.pool.freeList.Nodup ∧ ptr ∉ s.pool.freeList := by
            simp [List.nodup_append]
          exact hiff.mpr ⟨h3, hcase.2⟩
      · -- free-list entries stay untracked
        simp only [hp, if_false]
        intro a ha
        have hmem' : a ∈ s.pool.freeList ∨ a = ptr := by
          cases s.pool.deallocate_freeList_cases ptr with
          | inl hcase => exact Or.inl (hcase ▸ ha)
          | inr hcase =>
            rw [hcase.1] at ha
            simpa using (List.mem_append.mp ha).imp_right (by simp)
        cases hmem' with
        | inl hold =>
          exact lookup_none_of_sublist s.tracker _ a htr'.2.2.1 (h4 a hold)
        | inr heq => exact heq ▸ htr'.2.2.2

/-- Every reachable combined state satisfies the system invariant. -/
theorem sysReachable_inv (blockSize poolSize base : Nat) (s : SysState)
    (h : SysReachable blockSize poolSize base s) : SysInv s := by
  induction h with
  | refl =>
    refine ⟨rfl, by simp [SysState.init, MemoryTracker.init], ?_, ?_⟩
    · simp only [SysState.init, MemoryPool.create]
      by_cases hB : blockSize = 0
      · simp [hB, Nat.div_zero]
      · exact (List.nodup_range _).map fun i j hij =>
          Nat.eq_of_mul_eq_mul_right (Nat.pos_of_ne_zero hB)
            (by omega)
    · intro a _
      simp [SysState.init, MemoryTracker.init, MemoryTracker.lookup]
  | tail _ hstep ih => exact sysStep_inv hstep ih

/-! ### Claim C1 -/

/-- C1: for every interleaving of acquisitions and releases through the
plain-heap, tagged-heap, and pool paths, after each operation
`totalLiveBytes()` (the tracker's running total, `getTotalAllocated`)
equals the sum of the sizes of the allocations currently recorded in the
tracker and not yet released. -/
theorem C1_totalLiveBytes_eq_sum_of_tracked (blockSize poolSize base : Nat)
    (s : SysState) (h : SysReachable blockSize poolSize base s) :
    s.tracker.getTotalAllocated = sumSizes s.tracker.allocations :=
  (sysReachable_inv blockSize poolSize base s h).1

/-- Witness for C1 at a concrete one-step interleaving: a plain-heap
acquisition of 100 bytes at address 5 on the fresh system with a
64-byte-block, 640-byte pool at base 1000. -/
theorem C1_witness :
    (⟨(Trackable.opNew MemoryTracker.init 5 100).2,
        MemoryPool.create 64 640 1000⟩ : SysState).tracker.getTotalAllocated =
      sumSizes (⟨(Trackable.opNew MemoryTracker.init 5 100).2,
        MemoryPool.create 64 640 1000⟩ : SysState).tracker.allocations :=
  C1_totalLiveBytes_eq_sum_of_tracked 64 640 1000 _
    (Relation.ReflTransGen.single
      (SysStep.heapNew (SysState.init 64 640 1000) 5 100 (by decide)
        (by rfl) (by decide)))

/-! ### The pool invariant behind claims C2 and C3 -/

theorem length_le_of_nodup_blocks (l : List Nat) (f : Nat → Nat) (n : Nat)
    (hnd : l.Nodup) (hmem : ∀ a ∈ l, ∃ i, i < n ∧ a = f i) : l.length ≤ n := by
  have hsub : l.toFinset ⊆ (Finset.range n).image f := by
    intro a ha
    rw [List.mem_toFinset] at ha
    obtain ⟨i, hi, rfl⟩ := hmem a ha
    exact Finset.mem_image.mpr ⟨i, Finset.mem_range.mpr hi, rfl⟩
  calc l.length = l.toFinset.card := (List.toFinset_card_of_nodup hnd).symm
    _ ≤ ((Finset.range n).image f).card := Finset.card_le_card hsub
    _ ≤ n := le_trans Finset.card_image_le (by simp)

theorem poolStep_good (blockSize poolSize base : Nat) (hB : 0 < blockSize)
    (hdiv : blockSize ∣ poolSize) (hW : poolSize < W) {p p' : MemoryPool}
    (h : PoolStep p p') (hp : p.goodPool blockSize poolSize base) :
    p'.goodPool blockSize poolSize base := by
  obtain ⟨hbase, hbs, hps, hnd, hmem, hlen, hused⟩ := hp
  have hnB : poolSize / blockSize * blockSize = poolSize := Nat.div_mul_cancel hdiv
  cases h with
  | alloc =>
    unfold MemoryPool.allocate
    cases hlast : p.freeList.getLast? with
    | none => exact ⟨hbase, hbs, hps, hnd, hmem, hlen, hused⟩
    | some b =>
      have hne : p.freeList ≠ [] := by
        rintro hnil; rw [hnil] at hlast; simp at hlast
      have hlen1 : 1 ≤ p.freeList.length := by
        cases hfl : p.freeList with
        | nil => exact absurd hfl hne
        | cons x xs => simp [hfl]
      refine ⟨hbase, hbs, hps, hnd.sublist (List.dropLast_sublist p.freeList),
        fun a ha => hmem a ((List.dropLast_sublist p.freeList).subset ha), ?_, ?_⟩
      · rw [List.length_dropLast]; omega
      · -- used_ += blockSize_ stays below the size_t modulus
        rw [List.length_dropLast, hused, hbs]
        have hk : poolSize / blockSize - (p.freeList.length - 1) =
            (poolSize / blockSize - p.freeList.length) + 1 := by omega
        rw [hk, Nat.succ_mul]
        have hle : (poolSize / blockSize - p.freeList.length + 1) * blockSize ≤
            poolSize := by
          calc (poolSize / blockSize - p.freeList.length + 1) * blockSize
              ≤ poolSize / blockSize * blockSize :=
                Nat.mul_le_mul_right blockSize (by omega)
            _ = poolSize := hnB
        rw [Nat.succ_mul] at hle
        exact Nat.mod_eq_of_lt (by omega)
  | dealloc ptr =>
    by_cases hrange : p.base ≤ ptr ∧ ptr < p.base + p.poolSize
    · by_cases halign : (ptr - p.base) % p.blockSize = 0
      · by_cases hin : ptr ∈ p.freeList
        · rw [p.deallocate_double ptr hrange halign hin]
          exact ⟨hbase, hbs, hps, hnd, hmem, hlen, hused⟩
        · rw [p.deallocate_ok ptr hrange halign hin]
          -- the released address is a genuine block: ptr = base + k * blockSize
          -- with k < poolSize / blockSize, using blockSize ∣ poolSize
          obtain ⟨k, hk⟩ : ∃ k, ptr - base = blockSize * k := by
            obtain ⟨k, hk⟩ := Nat.dvd_of_mod_eq_zero halign
            exact ⟨k, by rw [← hbs, ← hbase]; exact hk⟩
          have hge : base ≤ ptr := hbase ▸ hrange.1
          have hptr : ptr = base + k * blockSize := by
            have h1 := (Nat.sub_eq_iff_eq_add hge).mp hk
            rw [h1]; ring
          have hkn : k < poolSize / blockSize := by
            have hlt : k * blockSize < poolSize := by
              have h2 := hrange.2
              rw [hbase, hps, hptr] at h2
              exact Nat.lt_of_add_lt_add_left h2
            by_contra hge2
            exact absurd hlt (not_lt.mpr
              (hnB ▸ Nat.mul_le_mul_right blockSize (Nat.le_of_not_lt hge2)))
          have hmem' : ∀ a ∈ p.freeList ++ [ptr],
              ∃ i, i < poolSize / blockSize ∧ a = base + i * blockSize := by
            intro a ha
            cases List.mem_append.mp ha with
            | inl h1 => exact hmem a h1
            | inr h1 =>
              have ha' : a = ptr := by simpa using h1
              exact ⟨k, hkn, ha'.trans hptr⟩
          have hnd' : (p.freeList ++ [ptr]).Nodup := by
            have hiff : (p.freeList ++ [ptr]).Nodup ↔
                p.freeList.Nodup ∧ ptr ∉ p.freeList := by
              simp [List.nodup_append]
            exact hiff.mpr ⟨hnd, hin⟩
          have hlen' : (p.freeList ++ [ptr]).length ≤ poolSize / blockSize :=
            length_le_of_nodup_blocks _ (fun i => base + i * blockSize) _ hnd' hmem'
          refine ⟨hbase, hbs, hps, hnd', hmem', hlen', ?_⟩
          -- used_ -= blockSize_ does not wrap here: the free list was short
          -- of at least one block, so used_ ≥ blockSize
          have hlenlt : p.freeList.length + 1 ≤ poolSize / blockSize := by
            simpa using hlen'
          have hBW : blockSize < W := lt_of_le_of_lt
            (Nat.le_of_dvd (by omega) hdiv) hW
          rw [hused, hbs, List.length_append]
          have hm : poolSize / blockSize - p.freeList.length =
              (poolSize / blockSize - (p.freeList.length + 1)) + 1 := by omega
          rw [hm, Nat.succ_mul, Nat.mod_eq_of_lt hBW]
          have hsub : (poolSize / blockSize - (p.freeList.length + 1)) * blockSize +
              blockSize + (W - blockSize) =
              (poolSize / blockSize - (p.freeList.length + 1)) * blockSize + W := by
            omega
          rw [hsub, Nat.add_mod_right]
          have hlt : (poolSize / blockSize - (p.freeList.length + 1)) * blockSize <
              W := by
            calc (poolSize / blockSize - (p.freeList.length + 1)) * blockSize
                ≤ poolSize / blockSize * blockSize :=
                  Nat.mul_le_mul_right blockSize (by omega)
              _ = poolSize := hnB
              _ < W := hW
          simpa [List.length_append] using Nat.mod_eq_of_lt hlt
      · rw [p.deallocate_misaligned ptr hrange halign]
        exact ⟨hbase, hbs, hps, hnd, hmem, hlen, hused⟩
    · rw [p.deallocate_not_in_pool ptr hrange]
      exact ⟨hbase, hbs, hps, hnd, hmem, hlen, hused⟩

theorem poolReachable_good (blockSize poolSize base : Nat) (hB : 0 < blockSize)
    (hdiv : blockSize ∣ poolSize) (hW : poolSize < W) (p : MemoryPool)
    (h : PoolReachable blockSize poolSize base p) :
    p.goodPool blockSize poolSize base := by
  induction h with
  | refl =>
    refine ⟨rfl, rfl, rfl, ?_, ?_, ?_, ?_⟩
    · exact (List.nodup_range _).map fun i j hij =>
        Nat.eq_of_mul_eq_mul_right hB (by omega)
    · intro a ha
      simp only [MemoryPool.create, List.mem_map, List.mem_range] at ha
      obtain ⟨i, hi, rfl⟩ := ha
      exact ⟨i, hi, rfl⟩
    · simp [MemoryPool.create]
    · simp [MemoryPool.create]
  | tail _ hstep ih => exact poolStep_good blockSize poolSize base hB hdiv hW hstep ih

/-! ### Claims C2 and C3 -/

/-- Counterexample to C2 as stated: for `blockSize = 64`, `poolSize = 100`
(where the block size does not divide the pool size) the claimed equation
`freeCount * blockSize + used = poolSize` is already false in the state
right after construction: the single 64-byte block accounts for 64 of the
100 bytes. -/
theorem C2_counterexample :
    ¬((MemoryPool.create 64 100 0).getFreeCount * 64 +
        (MemoryPool.create 64 100 0).getUsed = 100) := by decide

/-- C2 (amended): for every `MemoryPool` whose block size is positive and
divides the pool size (`poolSize < 2 ^ 64` as for any `size_t`), at every
point — after construction and after any sequence of `allocate` and
`deallocate` calls — the number of free-list entries times `blockSize` plus
the used-bytes counter equals `poolSize`; moreover every free-list address
is block-aligned, lies within `[base, base + poolSize)`, and appears at most
once. -/
theorem C2_pool_invariant (blockSize poolSize base : Nat) (hB : 0 < blockSize)
    (hdiv : blockSize ∣ poolSize) (hW : poolSize < W) (p : MemoryPool)
    (h : PoolReachable blockSize poolSize base p) :
    p.getFreeCount * blockSize + p.getUsed = poolSize ∧
    (∀ a ∈ p.freeList,
      (a - base) % blockSize = 0 ∧ base ≤ a ∧ a < base + poolSize) ∧
    p.freeList.Nodup := by
  obtain ⟨hbase, hbs, hps, hnd, hmem, hlen, hused⟩ :=
    poolReachable_good blockSize poolSize base hB hdiv hW p h
  have hnB : poolSize / blockSize * blockSize = poolSize := Nat.div_mul_cancel hdiv
  refine ⟨?_, ?_, hnd⟩
  · rw [MemoryPool.getFreeCount, MemoryPool.getUsed, hused]
    have hsum : p.freeList.length * blockSize +
        (poolSize / blockSize - p.freeList.length) * blockSize =
        poolSize / blockSize * blockSize := by
      rw [← Nat.add_mul]
      congr 1
      omega
    rw [hsum, hnB]
  · intro a ha
    obtain ⟨i, hi, rfl⟩ := hmem a ha
    refine ⟨?_, Nat.le_add_right _ _, ?_⟩
    · rw [Nat.add_sub_cancel_left base (i * blockSize)]
      exact Nat.mul_mod_left i blockSize
    · have hlt : i * blockSize < poolSize := by
        have h1 : (i + 1) * blockSize ≤ poolSize / blockSize * blockSize :=
          Nat.mul_le_mul_right blockSize hi
        rw [hnB, Nat.succ_mul] at h1
        omega
      exact Nat.add_lt_add_left hlt base

/-- Witness for C2 (amended) at a concrete pool: 64-byte blocks, a 640-byte
pool at base 0, in its initial state. -/
theorem C2_witness :
    (MemoryPool.create 64 640 0).getFreeCount * 64 +
        (MemoryPool.create 64 640 0).getUsed = 640 ∧
    (∀ a ∈ (MemoryPool.create 64 640 0).freeList,
      (a - 0) % 64 = 0 ∧ 0 ≤ a ∧ a < 0 + 640) ∧
    (MemoryPool.create 64 640 0).freeList.Nodup :=
  C2_pool_invariant 64 640 0 (by decide) (by decide) (by decide) _
    Relation.ReflTransGen.refl

/-- Counterexample to C3 as stated: for `blockSize = 64`, `poolSize = 100`
the pool has `N = 1` block, yet the in-range, block-aligned address
`base + 64` (which is *not* one of the `N` blocks, since 64 does not divide
100) passes every check of `deallocate`, so the call appends it to the free
list and wraps `used_ = 0 - 64` around zero: after this single `deallocate`
call, `freeBlockCount() * B + usedBytes() ≠ N * B`, so the equation is not
preserved by every `deallocate` call. -/
theorem C3_counterexample :
    ¬(((MemoryPool.create 64 100 0).deallocate 64).1.getFreeCount * 64 +
        ((MemoryPool.create 64 100 0).deallocate 64).1.getUsed =
        100 / 64 * 64) := by decide

/-- C3 (amended): for any pool of `N = poolSize / blockSize` blocks of
positive size `B = blockSize` with `B` dividing `poolSize`
(`poolSize < 2 ^ 64` as for any `size_t`), at every observation point
`freeBlockCount() * B + usedBytes() = N * B`: the equation holds in the
initial state and is preserved by every `allocate` and `deallocate`
call. -/
theorem C3_pool_accounting (blockSize poolSize base : Nat) (hB : 0 < blockSize)
    (hdiv : blockSize ∣ poolSize) (hW : poolSize < W) (p : MemoryPool)
    (h : PoolReachable blockSize poolSize base p) :
    p.getFreeCount * blockSize + p.getUsed =
      poolSize / blockSize * blockSize := by
  obtain ⟨hbase, hbs, hps, hnd, hmem, hlen, hused⟩ :=
    poolReachable_good blockSize poolSize base hB hdiv hW p h
  rw [MemoryPool.getFreeCount, MemoryPool.getUsed, hused, ← Nat.add_mul]
  congr 1
  omega

/-- Witness for C3 (amended) at a concrete pool: 32-byte blocks, a 320-byte
pool at base 1000, after one `allocate` call. -/
theorem C3_witness :
    (MemoryPool.create 32 320 1000).allocate.2.getFreeCount * 32 +
        (MemoryPool.create 32 320 1000).allocate.2.getUsed =
      320 / 32 * 32 :=
  C3_pool_accounting 32 320 1000 (by decide) (by decide) (by decide) _
    (Relation.ReflTransGen.single (PoolStep.alloc _))

/-! ### Claim C4 -/

theorem MemoryPool.deallocate_ok_inversion (p : MemoryPool) (ptr : Nat)
    (h : (p.deallocate ptr).2 = .ok) :
    (p.base ≤ ptr ∧ ptr < p.base + p.poolSize) ∧
      (ptr - p.base) % p.blockSize = 0 ∧ ptr ∉ p.freeList ∧
      (p.deallocate ptr).1 =
        { p with freeList := p.freeList ++ [ptr]
                 used := (p.used + (W - p.blockSize % W)) % W } := by
  by_cases h1 : p.base ≤ ptr ∧ ptr < p.base + p.poolSize
  · by_cases h2 : (ptr - p.base) % p.blockSize = 0
    · by_cases h3 : ptr ∈ p.freeList
      · rw [p.deallocate_double ptr h1 h2 h3] at h
        simp at h
      · exact ⟨h1, h2, h3, by rw [p.deallocate_ok ptr h1 h2 h3]⟩
    · rw [p.deallocate_misaligned ptr h1 h2] at h
      simp at h
  · rw [p.deallocate_not_in_pool ptr h1] at h
    simp at h

/-- C4: for every pool and every address `a`: if `a` lies outside
`[base, base + poolSize)` or `(a - base)` is not a multiple of `blockSize`,
`deallocate a` reports `InvalidRelease` and leaves the pool state (free
list and used-bytes counter) unchanged; if `a` is in range and aligned but
already present in the free list, `deallocate a` reports `DoubleRelease`
and leaves the pool state unchanged; and after a first successful
`deallocate a`, a second `deallocate a` reports `DoubleRelease` and leaves
the pool state — in particular the free count — unchanged. -/
theorem C4_deallocate_validation (p : MemoryPool) (a : Nat) :
    ((¬(p.base ≤ a ∧ a < p.base + p.poolSize) ∨ (a - p.base) % p.blockSize ≠ 0) →
      (p.deallocate a).2.isInvalidRelease = true ∧ (p.deallocate a).1 = p) ∧
    ((p.base ≤ a ∧ a < p.base + p.poolSize) → (a - p.base) % p.blockSize = 0 →
      a ∈ p.freeList →
      (p.deallocate a).2 = PoolDeallocOutcome.doubleRelease ∧
        (p.deallocate a).1 = p) ∧
    ((p.deallocate a).2 = PoolDeallocOutcome.ok →
      ((p.deallocate a).1.deallocate a).2 = PoolDeallocOutcome.doubleRelease ∧
        ((p.deallocate a).1.deallocate a).1.getFreeCount =
          (p.deallocate a).1.getFreeCount) := by
  refine ⟨?_, ?_, ?_⟩
  · intro hbad
    cases hbad with
    | inl hr =>
      rw [p.deallocate_not_in_pool a hr]
      exact ⟨rfl, rfl⟩
    | inr hal =>
      by_cases hr : p.base ≤ a ∧ a < p.base + p.poolSize
      · rw [p.deallocate_misaligned a hr hal]
        exact ⟨rfl, rfl⟩
      · rw [p.deallocate_not_in_pool a hr]
        exact ⟨rfl, rfl⟩
  · intro hr hal hm
    rw [p.deallocate_double a hr hal hm]
    exact ⟨rfl, rfl⟩
  · intro hok
    obtain ⟨hr, hal, _, hstate⟩ := p.deallocate_ok_inversion a hok
    rw [hstate]
    have hdbl := MemoryPool.deallocate_double
      { p with freeList := p.freeList ++ [a]
               used := (p.used + (W - p.blockSize % W)) % W } a hr hal
      (List.mem_append.mpr (Or.inr (by simp)))
    rw [hdbl]
    exact ⟨rfl, rfl⟩

/-- Witness for C4 at concrete inputs: on a fresh 640-byte pool of 64-byte
blocks at base 0, the out-of-range address 70000 exercises the
invalid-release leg and the already-free block address 64 exercises the
double-release leg. -/
theorem C4_witness :
    (((MemoryPool.create 64 640 0).deallocate 70000).2.isInvalidRelease = true ∧
      ((MemoryPool.create 64 640 0).deallocate 70000).1 =
        MemoryPool.create 64 640 0) ∧
    (((MemoryPool.create 64 640 0).deallocate 64).2 =
        PoolDeallocOutcome.doubleRelease ∧
      ((MemoryPool.create 64 640 0).deallocate 64).1 =
        MemoryPool.create 64 640 0) :=
  ⟨(C4_deallocate_validation (MemoryPool.create 64 640 0) 70000).1
      (Or.inl (by decide)),
   (C4_deallocate_validation (MemoryPool.create 64 640 0) 64).2.1
      (by decide) (by decide) (by decide)⟩

/-! ### Claim C5 -/

set_option maxRecDepth 4096 in
/-- C5 (Scenario A): a pool with `blockSize = 64`, `poolSize = 640` holds 10
blocks; 10 sequential `allocate()` calls all succeed with pairwise distinct
addresses (the last pushed block first); an 11th `allocate()` fails
(`nullptr`, the spec's `Exhausted`) without mutating pool state; and after
deallocating any one of the ten blocks, the next `allocate()` returns that
same block's address (LIFO reuse of the most recently freed block). -/
theorem C5_scenarioA (base : Nat) :
    ((allocMany (MemoryPool.create 64 640 base) 10).1 =
        [base + 576, base + 512, base + 448, base + 384, base + 320,
          base + 256, base + 192, base + 128, base + 64, base].map some ∧
      ([base + 576, base + 512, base + 448, base + 384, base + 320,
        base + 256, base + 192, base + 128, base + 64, base] : List Nat).Nodup) ∧
    (allocMany (MemoryPool.create 64 640 base) 10).2.allocate =
      (none, (allocMany (MemoryPool.create 64 640 base) 10).2) ∧
    ∀ i, i < 10 →
      ((allocMany (MemoryPool.create 64 640 base) 10).2.deallocate
          (base + i * 64)).2 = PoolDeallocOutcome.ok ∧
      (((allocMany (MemoryPool.create 64 640 base) 10).2.deallocate
          (base + i * 64)).1.allocate).1 = some (base + i * 64) := by
  have h10 : allocMany (MemoryPool.create 64 640 base) 10 =
      ([some (base + 576), some (base + 512), some (base + 448),
        some (base + 384), some (base + 320), some (base + 256),
        some (base + 192), some (base + 128), some (base + 64), some base],
       { base := base, blockSize := 64, poolSize := 640, used := 640,
         freeList := [] }) := by
    rfl
  refine ⟨⟨?_, ?_⟩, ?_, ?_⟩
  · rw [h10]
    simp
  · -- the ten returned addresses are pairwise distinct
    simp
  · rw [h10]
    rfl
  · intro i hi
    rw [h10]
    have hrange : base ≤ base + i * 64 ∧ base + i * 64 < base + 640 := by
      constructor
      · exact Nat.le_add_right base (i * 64)
      · have : i * 64 < 640 := by omega
        omega
    have hal : (base + i * 64 - base) % 64 = 0 := by
      rw [Nat.add_sub_cancel_left base (i * 64)]
      exact Nat.mul_mod_left i 64
    have hok := MemoryPool.deallocate_ok
      { base := base, blockSize := 64, poolSize := 640, used := 640,
        freeList := ([] : List Nat) } (base + i * 64) hrange hal (by simp)
    rw [hok]
    exact ⟨rfl, rfl⟩

/-- Witness for C5 at `base = 0`, exercising the LIFO-reuse leg for block 3
(address 192). -/
theorem C5_witness :
    ((allocMany (MemoryPool.create 64 640 0) 10).2.deallocate
        (0 + 3 * 64)).2 = PoolDeallocOutcome.ok ∧
    (((allocMany (MemoryPool.create 64 640 0) 10).2.deallocate
        (0 + 3 * 64)).1.allocate).1 = some (0 + 3 * 64) :=
  (C5_scenarioA 0).2.2 3 (by decide)

/-! ### Claim C6 -/

theorem countRetries_zero (n : Nat) : ∀ s : ReserveState,
    s.emergencyReserve = false ∨ s.newHandlerInstalled = false →
    countRetries (s.exhaustionOutcomes n) = 0 := by
  induction n with
  | zero => intro s _; rfl
  | succ n ih =>
    intro s h
    by_cases hh : s.newHandlerInstalled
    · have hres : s.emergencyReserve = false := by
        cases h with
        | inl h1 => exact h1
        | inr h1 => rw [hh] at h1; cases h1
      show countRetries (ReserveState.exhaustionOutcomes s (n + 1)) = 0
      unfold ReserveState.exhaustionOutcomes ReserveState.onExhaustion
        ReserveState.memoryExhausted ReserveState.releaseEmergencyReserve
      simp only [hh, if_true, hres, Bool.false_eq_true, if_false]
      have := ih { emergencyReserve := false, newHandlerInstalled := false }
        (Or.inl rfl)
      simpa [countRetries] using this
    · show countRetries (ReserveState.exhaustionOutcomes s (n + 1)) = 0
      unfold ReserveState.exhaustionOutcomes ReserveState.onExhaustion
      simp only [hh, if_false]
      have := ih s (Or.inr (by simpa using hh))
      simpa [countRetries] using this

/-- C6: the emergency reserve is released at most once per process.  The
first time heap exhaustion invokes the recovery hook
(`MemoryTracker::memoryExhausted`) while the reserve is still held, the
reserve is released and the allocation is retried; once the reserve has
been consumed, every subsequent exhaustion performs no recovery, leaves the
reserve released, and fails with `OutOfMemory` (`std::bad_alloc`); and in
any sequence of exhaustion events, at most one performs a recovery. -/
theorem C6_emergency_reserve_single_shot (s : ReserveState) (n : Nat) :
    (s.emergencyReserve = true →
      s.memoryExhausted =
        ({ emergencyReserve := false,
           newHandlerInstalled := s.newHandlerInstalled },
         ExhaustOutcome.retryPossible)) ∧
    (s.emergencyReserve = false →
      s.onExhaustion.2 = ExhaustOutcome.outOfMemory ∧
      s.onExhaustion.1.emergencyReserve = false) ∧
    countRetries (s.exhaustionOutcomes n) ≤ 1 := by
  refine ⟨?_, ?_, ?_⟩
  · intro hres
    unfold ReserveState.memoryExhausted ReserveState.releaseEmergencyReserve
    simp [hres]
  · intro hres
    unfold ReserveState.onExhaustion ReserveState.memoryExhausted
      ReserveState.releaseEmergencyReserve
    by_cases hh : s.newHandlerInstalled
    · simp [hh, hres]
    · simp [hh, hres]
  · by_cases hres : s.emergencyReserve
    · by_cases hh : s.newHandlerInstalled
      · cases n with
        | zero => simp [ReserveState.exhaustionOutcomes, countRetries]
        | succ n =>
          show countRetries (ReserveState.exhaustionOutcomes s (n + 1)) ≤ 1
          unfold ReserveState.exhaustionOutcomes ReserveState.onExhaustion
            ReserveState.memoryExhausted ReserveState.releaseEmergencyReserve
          simp only [hh, if_true, hres]
          have hzero := countRetries_zero n
            { emergencyReserve := false, newHandlerInstalled := true }
            (Or.inl rfl)
          have hcons : ∀ l : List ExhaustOutcome,
              countRetries (ExhaustOutcome.retryPossible :: l) =
                countRetries l + 1 := by
            intro l
            simp [countRetries]
          rw [hcons, hzero]
      · have := countRetries_zero n s (Or.inr (by simpa using hh))
        calc countRetries (s.exhaustionOutcomes n) = 0 := this
          _ ≤ 1 := by omega
    · have := countRetries_zero n s (Or.inl (by simpa using hres))
      calc countRetries (s.exhaustionOutcomes n) = 0 := this
        _ ≤ 1 := by omega

/-- Witness for C6 at the freshly initialized reserve state and five
successive exhaustion events. -/
theorem C6_witness :
    ReserveState.init.memoryExhausted =
      ({ emergencyReserve := false, newHandlerInstalled := true },
       ExhaustOutcome.retryPossible) ∧
    countRetries (ReserveState.init.exhaustionOutcomes 5) ≤ 1 :=
  ⟨(C6_emergency_reserve_single_shot ReserveState.init 5).1 rfl,
   (C6_emergency_reserve_single_shot ReserveState.init 5).2.2⟩

/-! ### Claims C7, C8, C9, C10 -/

theorem recordDeallocation_after_record (t : MemoryTracker) (p sz : Nat)
    (f : String) (li : Int) (hp : p ≠ 0) :
    ((t.recordAllocation p sz f li).recordDeallocation p).1.totalAllocated =
      t.totalAllocated := by
  unfold MemoryTracker.recordAllocation MemoryTracker.recordDeallocation
  simp only [hp, if_false]
  rw [List.find?_cons_of_pos _ (by simp)]
  simp

theorem opNewTagged_inversion (t : MemoryTracker) (addr size : Nat)
    (file : String) (line : Int) (a : Nat) (t1 : MemoryTracker)
    (h : Trackable.opNewTagged t addr size file line = (some a, t1)) :
    addr = a ∧ addr ≠ 0 ∧
      t1 = t.recordAllocation addr (if size = 0 then 1 else size) file line := by
  unfold Trackable.opNewTagged at h
  by_cases h0 : addr = 0
  · simp [h0] at h
  · simp only [h0, if_false, Prod.mk.injEq, Option.some.injEq] at h
    exact ⟨h.1, h0, h.2.symm⟩

theorem opNewPool_inversion (t : MemoryTracker) (pool : MemoryPool)
    (size a : Nat) (t1 : MemoryTracker) (pool1 : MemoryPool)
    (h : Trackable.opNewPool t pool size = (some a, t1, pool1)) :
    a ≠ 0 ∧ t1 = t.recordAllocation a size "MemoryPool" 0 := by
  unfold Trackable.opNewPool at h
  by_cases hsz : size > pool.blockSize
  · simp [hsz] at h
  · simp only [hsz, if_false] at h
    cases halloc : pool.allocate with
    | mk res pool' =>
      rw [halloc] at h
      cases res with
      | none => simp at h
      | some b =>
        by_cases hb : b = 0
        · simp [hb] at h
        · simp only [hb, if_false, Prod.mk.injEq, Option.some.injEq] at h
          obtain ⟨hba, ht1, _⟩ := h
          exact ⟨hba ▸ hb, hba ▸ ht1.symm⟩

/-- C7: for both the tagged-heap and the pooled acquisition path, if a
payload's constructor fails after raw storage was successfully acquired,
the runtime invokes the placement delete paired with the placement new that
acquired the storage, and that release restores the tracker's running total:
`totalLiveBytes()` after the failed attempt equals its value before the
attempt. -/
theorem C7_failed_construction_restores_total :
    (∀ (t : MemoryTracker) (addr size : Nat) (file : String) (line : Int)
        (a : Nat) (t1 : MemoryTracker),
      Trackable.opNewTagged t addr size file line = (some a, t1) →
      (Trackable.opDeleteTagged t1 a).getTotalAllocated =
        t.getTotalAllocated) ∧
    (∀ (t : MemoryTracker) (pool : MemoryPool) (size a : Nat)
        (t1 : MemoryTracker) (pool1 : MemoryPool),
      Trackable.opNewPool t pool size = (some a, t1, pool1) →
      (Trackable.opDeletePool t1 pool1 a).1.getTotalAllocated =
        t.getTotalAllocated) := by
  constructor
  · intro t addr size file line a t1 h
    obtain ⟨rfl, h0, rfl⟩ := opNewTagged_inversion t addr size file line a t1 h
    unfold Trackable.opDeleteTagged
    simp only [h0, if_false]
    exact recordDeallocation_after_record t addr _ file line h0
  · intro t pool size a t1 pool1 h
    obtain ⟨h0, rfl⟩ := opNewPool_inversion t pool size a t1 pool1 h
    unfold Trackable.opDeletePool
    have htr : (t.recordAllocation a size "MemoryPool" 0).isTracked a = true := by
      unfold MemoryTracker.isTracked MemoryTracker.recordAllocation
      simp only [h0, if_false]
      rw [List.find?_cons_of_pos _ (by simp)]
      rfl
    simp only [h0, if_false, htr, if_true]
    exact recordDeallocation_after_record t a size "MemoryPool" 0 h0

/-- Witness for C7: a tagged acquisition of 100 bytes at address 7 on the
fresh tracker whose construction fails, and a pooled acquisition of 40
bytes from a fresh 640-byte pool whose construction fails. -/
theorem C7_witness :
    (Trackable.opDeleteTagged
        (Trackable.opNewTagged MemoryTracker.init 7 100 "f.cc" 10).2
        7).getTotalAllocated = MemoryTracker.init.getTotalAllocated ∧
    (Trackable.opDeletePool
        (Trackable.opNewPool MemoryTracker.init
          (MemoryPool.create 64 640 1000) 40).2.1
        (Trackable.opNewPool MemoryTracker.init
          (MemoryPool.create 64 640 1000) 40).2.2
        1576).1.getTotalAllocated = MemoryTracker.init.getTotalAllocated :=
  ⟨C7_failed_construction_restores_total.1 MemoryTracker.init 7 100 "f.cc" 10
      7 _ (by rfl),
   C7_failed_construction_restores_total.2 MemoryTracker.init
      (MemoryPool.create 64 640 1000) 40 1576 _ _ (by rfl)⟩

/-- Counterexample to C8 as stated: the null address is never tracked, yet
`Trackable::operator delete(nullptr)` returns silently (the C++-mandated
null no-op) without reporting `UntrackedRelease`. -/
theorem C8_counterexample :
    MemoryTracker.init.lookup 0 = none ∧
    (Trackable.opDelete MemoryTracker.init 0).2 ≠
      Trackable.HeapReleaseOutcome.untrackedRelease := by decide

/-- C8 (amended): for every *non-null* address that is not currently
tracked (never returned by an acquisition, or already released), the
heap-path release reports `UntrackedRelease`, performs no state change (the
record map and `totalLiveBytes()` are unchanged), and never frees the
underlying memory. -/
theorem C8_untracked_release_no_op (t : MemoryTracker) (a : Nat)
    (h0 : a ≠ 0) (h : t.lookup a = none) :
    (Trackable.opDelete t a).2 =
        Trackable.HeapReleaseOutcome.untrackedRelease ∧
    (Trackable.opDelete t a).1 = t ∧
    (Trackable.opDelete t a).2.callsFree = false := by
  have htr : t.isTracked a = false := by
    unfold MemoryTracker.isTracked
    unfold MemoryTracker.lookup at h
    simp only [Option.map_eq_none'] at h
    simp [h]
  unfold Trackable.opDelete
  simp [h0, htr, Trackable.HeapReleaseOutcome.callsFree]

/-- Witness for C8 (amended) at the fresh tracker and the never-acquired
address 42. -/
theorem C8_witness :
    (Trackable.opDelete MemoryTracker.init 42).2 =
        Trackable.HeapReleaseOutcome.untrackedRelease ∧
    (Trackable.opDelete MemoryTracker.init 42).1 = MemoryTracker.init ∧
    (Trackable.opDelete MemoryTracker.init 42).2.callsFree = false :=
  C8_untracked_release_no_op MemoryTracker.init 42 (by decide) (by rfl)

/-- C9 (Scenario B): a tagged acquisition of 100 bytes at a fresh non-null
address succeeds and raises `totalLiveBytes()` by exactly 100; releasing
that address through the heap path succeeds (outcome `released`, which
frees the memory) and restores the tracker to its exact prior state — in
particular `totalLiveBytes()` drops by 100 and a later `leakReport()` shows
no entry for that allocation. -/
theorem C9_tagged_roundtrip (t : MemoryTracker) (addr : Nat) (h0 : addr ≠ 0)
    (hfresh : t.lookup addr = none) :
    Trackable.opNewTagged t addr 100 "f.cc" 10 =
      (some addr,
       ⟨(addr, ⟨100, "f.cc", 10⟩) :: t.allocations, t.totalAllocated + 100⟩) ∧
    (Trackable.opNewTagged t addr 100 "f.cc" 10).2.getTotalAllocated =
      t.getTotalAllocated + 100 ∧
    Trackable.opDelete (Trackable.opNewTagged t addr 100 "f.cc" 10).2 addr =
      (t, Trackable.HeapReleaseOutcome.released) ∧
    ∀ e ∈ (Trackable.opDelete
        (Trackable.opNewTagged t addr 100 "f.cc" 10).2 addr).1.leakReport,
      e.1 ≠ addr := by
  have hrec := recordAllocation_fresh t addr 100 "f.cc" 10 h0 hfresh
  have hnew : Trackable.opNewTagged t addr 100 "f.cc" 10 =
      (some addr,
       ⟨(addr, ⟨100, "f.cc", 10⟩) :: t.allocations, t.totalAllocated + 100⟩) := by
    unfold Trackable.opNewTagged
    simp only [h0, if_false]
    rw [show (if (100 : Nat) = 0 then 1 else 100) = 100 from rfl, hrec]
  have hdel : Trackable.opDelete
      (⟨(addr, ⟨100, "f.cc", 10⟩) :: t.allocations,
        t.totalAllocated + 100⟩ : MemoryTracker) addr =
      (t, Trackable.HeapReleaseOutcome.released) := by
    unfold Trackable.opDelete MemoryTracker.isTracked
      MemoryTracker.recordDeallocation
    simp only [h0, if_false]
    rw [List.find?_cons_of_pos _ (by simp)]
    simp only [Option.isSome_some, if_true]
    rw [List.eraseP_cons_of_pos (by simp)]
    simp
  refine ⟨hnew, ?_, ?_, ?_⟩
  · rw [hnew]; rfl
  · rw [hnew]; exact hdel
  · rw [hnew]
    intro e he
    rw [hdel] at he
    exact (t.lookup_eq_none_iff addr).mp hfresh e he

/-- Witness for C9 at the fresh tracker and address 7. -/
theorem C9_witness :
    Trackable.opNewTagged MemoryTracker.init 7 100 "f.cc" 10 =
      (some 7, ⟨[(7, ⟨100, "f.cc", 10⟩)], 100⟩) ∧
    (Trackable.opNewTagged MemoryTracker.init 7 100 "f.cc" 10).2.getTotalAllocated =
      MemoryTracker.init.getTotalAllocated + 100 ∧
    Trackable.opDelete
        (Trackable.opNewTagged MemoryTracker.init 7 100 "f.cc" 10).2 7 =
      (MemoryTracker.init, Trackable.HeapReleaseOutcome.released) ∧
    ∀ e ∈ (Trackable.opDelete
        (Trackable.opNewTagged MemoryTracker.init 7 100 "f.cc" 10).2
          7).1.leakReport,
      e.1 ≠ 7 :=
  C9_tagged_roundtrip MemoryTracker.init 7 (by decide) (by rfl)

/-- C10: a zero-byte request through the plain-heap or tagged-heap path is
treated as a one-byte request: when the underlying `malloc` succeeds, the
returned address is the (non-null) `malloc` result and the tracker records
an allocation of size 1, so `totalLiveBytes()` increases by 1. -/
theorem C10_zero_size_request (t : MemoryTracker) (addr : Nat)
    (file : String) (line : Int) (h0 : addr ≠ 0) :
    (Trackable.opNew t addr 0).1 = some addr ∧
    (Trackable.opNew t addr 0).2.getTotalAllocated =
      t.getTotalAllocated + 1 ∧
    (Trackable.opNew t addr 0).2.lookup addr = some ⟨1, "Unknown", 0⟩ ∧
    (Trackable.opNewTagged t addr 0 file line).1 = some addr ∧
    (Trackable.opNewTagged t addr 0 file line).2.getTotalAllocated =
      t.getTotalAllocated + 1 ∧
    (Trackable.opNewTagged t addr 0 file line).2.lookup addr =
      some ⟨1, file, line⟩ := by
  unfold Trackable.opNew Trackable.opNewTagged MemoryTracker.recordAllocation
    MemoryTracker.getTotalAllocated MemoryTracker.lookup
  simp [h0, List.find?_cons]

/-- Witness for C10 at the fresh tracker and address 9. -/
theorem C10_witness :
    (Trackable.opNew MemoryTracker.init 9 0).1 = some 9 ∧
    (Trackable.opNew MemoryTracker.init 9 0).2.getTotalAllocated =
      MemoryTracker.init.getTotalAllocated + 1 ∧
    (Trackable.opNew MemoryTracker.init 9 0).2.lookup 9 =
      some ⟨1, "Unknown", 0⟩ ∧
    (Trackable.opNewTagged MemoryTracker.init 9 0 "g.cc" 3).1 = some 9 ∧
    (Trackable.opNewTagged MemoryTracker.init 9 0 "g.cc" 3).2.getTotalAllocated =
      MemoryTracker.init.getTotalAllocated + 1 ∧
    (Trackable.opNewTagged MemoryTracker.init 9 0 "g.cc" 3).2.lookup 9 =
      some ⟨1, "g.cc", 3⟩ :=
  C10_zero_size_request MemoryTracker.init 9 "g.cc" 3 (by decide)

end MemoryManagement
